import Mathlib

/-!
Shallow embedding of the slate correlation / covariance pipeline
(`corr.py`, `cov.py`): the historical-correlation lookup tables, the
row-by-row slate correlation assembly loop, the PSD validation gate and
the covariance scaling step, together with proofs of the properties the
specification states about them.

Floating-point cell values are modelled as `Option ℚ`, with `none`
playing the role of `NaN` (the initial `pd.DataFrame(..., dtype=float)`
is all-`NaN`, and `isna` tests model as `= none`).  A correlation matrix
is a total function `String → String → Option ℚ`, read only at indices
that are names of slate rows.
-/

/-- One row of today's slate CSV (`slate_<date>.csv`), with the fields the
core pipeline reads: `Name` (matrix label), `Player` (identity used by the
std-dev lookup in `cov.py`), `Position`, `Team`, batting `Order`, and the
designated opposing pitcher `Opp_Pitcher`. -/
structure SlateRow where
  Name : String
  Player : String
  Position : String
  Team : String
  Order : Int
  Opp_Pitcher : String
deriving DecidableEq, Repr

/-- The historical batting-order correlation table `batters_corr`:
`slots` is its index (= columns) and `val` the stored entry, where
`none` models a `NaN` ("no data") entry at a present key. -/
structure BattersCorr where
  slots : List Int
  val : Int → Int → Option ℚ

/-- A slate correlation matrix: cell lookup by (row name, column name);
`none` models `NaN`. -/
abbrev CorrM := String → String → Option ℚ

/-- The freshly allocated all-`NaN` frame `pd.DataFrame(columns=names, index=names)`. -/
def initCorr : CorrM := fun _ _ => none

/-- Single-cell assignment `corr.loc[i, j] = v`. -/
def setCell (c : CorrM) (i j : String) (v : Option ℚ) : CorrM :=
  fun a b => if a = i ∧ b = j then v else c a b

/-- The matrix labels, `slate["Name"]`. -/
def slateNames (slate : List SlateRow) : List String := slate.map SlateRow.Name

/-- `batters_corr.loc[o1, o2]`: a `KeyError` when either label is absent
from the index, otherwise the stored entry (possibly `NaN`). -/
def bcLookup (bc : BattersCorr) (o1 o2 : Int) : Except String (Option ℚ) :=
  if o1 ∈ bc.slots ∧ o2 ∈ bc.slots then Except.ok (bc.val o1 o2) else Except.error "KeyError"

/-- The value the teammate loop writes for teammate `t` of batter `r`:
0 for a pitcher teammate, else the looked-up order correlation. -/
def teammateVal (r t : SlateRow) (bc : BattersCorr) : Option ℚ :=
  if t.Position = "P" then some 0 else bc.val r.Order t.Order

/-- One iteration of the inner teammate loop of `corr.py` for batter `r`:
sets both `corr.loc[r, t]` and `corr.loc[t, r]`. -/
def teammateStep (r : SlateRow) (bc : BattersCorr) (c : CorrM) (t : SlateRow) :
    Except String CorrM :=
  if t.Position = "P" then
    Except.ok (setCell (setCell c r.Name t.Name (some 0)) t.Name r.Name (some 0))
  else
    match bcLookup bc r.Order t.Order with
    | Except.error e => Except.error e
    | Except.ok v => Except.ok (setCell (setCell c r.Name t.Name v) t.Name r.Name v)

/-- `corr.loc[p, corr.columns != p] = 0`: zero every cell of row `p`
whose column label is a slate name other than `p`. -/
def pitcherRowZero (names : List String) (c : CorrM) (p : String) : CorrM :=
  fun a b => if a = p ∧ b ≠ p ∧ b ∈ names then some 0 else c a b

/-- `corr.loc[p, corr.loc[p].isna()] = 0`: zero-fill the still-`NaN`
cells of row `p`. -/
def nanFillRow (names : List String) (c : CorrM) (p : String) : CorrM :=
  fun a b => if a = p ∧ b ∈ names ∧ c a b = none then some 0 else c a b

/-- One iteration of the outer assembly loop of `corr.py` for slate row `r`. -/
def processRow (slate : List SlateRow) (bc : BattersCorr) (pc : Option ℚ)
    (c : CorrM) (r : SlateRow) : Except String CorrM :=
  let c1 := setCell c r.Name r.Name (some 1)
  if r.Position = "P" then
    Except.ok (pitcherRowZero (slateNames slate) c1 r.Name)
  else
    match (slate.filter (fun t => decide (t.Team = r.Team))).foldlM (teammateStep r bc) c1 with
    | Except.error e => Except.error e
    | Except.ok c2 =>
      let c3 := setCell (setCell c2 r.Name r.Opp_Pitcher pc) r.Opp_Pitcher r.Name pc
      Except.ok (nanFillRow (slateNames slate) c3 r.Name)

/-- The whole assembly loop `for row in slate.itertuples(): ...` of `corr.py`,
starting from the all-`NaN` frame.  `pc` is the `pitchers_corr` scalar
(`none` models an undefined/`NaN` scalar). -/
def assemble (slate : List SlateRow) (bc : BattersCorr) (pc : Option ℚ) :
    Except String CorrM :=
  slate.foldlM (processRow slate bc pc) initCorr

/-- Observe one cell of an assembly outcome: `none` when the loop raised,
`some (cell value)` when it completed. -/
def cellOf (e : Except String CorrM) (x y : String) : Option (Option ℚ) :=
  match e with
  | Except.ok c => some (c x y)
  | Except.error _ => none

/-! ## PSD validator (`corr.py` lines 55-64) -/

/-- `np.array_equal` on one pair of float cells: `NaN` compares unequal
to everything, including itself. -/
def cellEq (a b : Option ℚ) : Bool :=
  match a, b with
  | some x, some y => decide (x = y)
  | _, _ => false

/-- `np.array_equal(corr, corr.T)` over the slate-name index. -/
def symCheck (names : List String) (c : CorrM) : Bool :=
  names.all (fun i => names.all (fun j => cellEq (c i j) (c j i)))

/-- The PSD gate followed by the `to_csv` write: raises
`ValueError("Correlation matrix not positive semi-definite")` unless the
matrix equals its transpose and every eigenvalue is `>= 0` (exact, no
tolerance); otherwise the matrix is written unchanged.  The eigenvalue
list (`np.linalg.eigvals(corr)`) is numerically computed outside the
embedding and is therefore taken as an input. -/
def validateAndWrite (names : List String) (c : CorrM) (eigs : List ℚ) :
    Except String CorrM :=
  if ¬(symCheck names c = true ∧ eigs.all (fun e => decide (0 ≤ e)) = true) then
    Except.error "Correlation matrix not positive semi-definite"
  else
    Except.ok c

/-! ## Covariance scaler (`cov.py` lines 126-144) -/

/-- `default_pitcher_std = 15`. -/
def default_pitcher_std : ℚ := 15

/-- `default_other_std = 10`. -/
def default_other_std : ℚ := 10

/-- The per-player standard deviation after the default-fill loop of
`cov.py`: a present historical value is kept; a missing (`NaN`) one is
replaced by the position-dependent default, the position being read from
the first slate row whose `Player` matches. -/
def fillStd (hist : String → Option ℚ) (slate : List SlateRow) (p : String) : Option ℚ :=
  match hist p with
  | some s => some s
  | none =>
    (slate.find? (fun r => decide (r.Player = p))).map
      (fun r => if r.Position = "P" then default_pitcher_std else default_other_std)

/-- `cov = np.diag(hist_std) @ corr @ np.diag(hist_std)`. -/
def covMatrix (n : ℕ) (std : Fin n → ℚ) (corrm : Matrix (Fin n) (Fin n) ℚ) :
    Matrix (Fin n) (Fin n) ℚ :=
  Matrix.diagonal std * corrm * Matrix.diagonal std

/-! ## Cell-level characterization of the assembly loop

`finalCell` gives a closed form for each cell of the assembled matrix: a
left fold of per-row cell effects.  `assemble_cells` below proves that on
a valid slate the loop succeeds and every cell of its output agrees with
`finalCell`. -/

/-- Find the teammate row of batter `r` whose name is `x`: the first row
of the slate on `r`'s team carrying that name. -/
def teamFind (slate : List SlateRow) (r : SlateRow) (x : String) : Option SlateRow :=
  (slate.filter (fun t => decide (t.Team = r.Team))).find? (fun t => decide (t.Name = x))

/-- Diagonal value produced by row `r`'s own iteration. -/
def diagVal (r : SlateRow) (bc : BattersCorr) : Option ℚ :=
  if r.Position = "P" then some 1 else some ((bc.val r.Order r.Order).getD 0)

/-- Off-diagonal value of cell `(r.Name, y)` right after row `r`'s own
iteration (row writes are `NaN`-filled at the end of the iteration). -/
def rowVal (slate : List SlateRow) (r : SlateRow) (y : String) (bc : BattersCorr)
    (pc : Option ℚ) : Option ℚ :=
  if r.Position = "P" then some 0
  else if y = r.Opp_Pitcher then some (pc.getD 0)
  else
    match teamFind slate r y with
    | some t => if t.Position = "P" then some 0 else some ((bc.val r.Order t.Order).getD 0)
    | none => some 0

/-- Value written into column cell `(x, r.Name)` by batter `r`'s
iteration (column writes are raw: not `NaN`-filled). -/
def colVal (slate : List SlateRow) (r : SlateRow) (x : String) (bc : BattersCorr)
    (pc : Option ℚ) : Option ℚ :=
  if x = r.Opp_Pitcher then pc
  else
    match teamFind slate r x with
    | some t => if t.Position = "P" then some 0 else bc.val r.Order t.Order
    | none => some 0

/-- `writes slate r x y`: row `r`'s iteration assigns cell `(x, y)`. -/
def writes (slate : List SlateRow) (r : SlateRow) (x y : String) : Prop :=
  r.Name = x ∨
    (r.Name = y ∧ r.Position ≠ "P" ∧
      (x = r.Opp_Pitcher ∨ (teamFind slate r x).isSome = true))

instance (slate : List SlateRow) (r : SlateRow) (x y : String) :
    Decidable (writes slate r x y) := by
  unfold writes; infer_instance

/-- The value row `r`'s iteration leaves in cell `(x, y)`, when it writes it. -/
def stepVal (slate : List SlateRow) (bc : BattersCorr) (pc : Option ℚ)
    (r : SlateRow) (x y : String) : Option ℚ :=
  if r.Name = x then (if y = x then diagVal r bc else rowVal slate r y bc pc)
  else colVal slate r x bc pc

/-- Effect of row `r`'s iteration on cell `(x, y)` given its prior value `v`. -/
def cellStep (slate : List SlateRow) (bc : BattersCorr) (pc : Option ℚ)
    (x y : String) (v : Option ℚ) (r : SlateRow) : Option ℚ :=
  if writes slate r x y then stepVal slate bc pc r x y else v

/-- Value of cell `(x, y)` after the iterations for the rows of `L`
(a prefix of the slate), starting from the all-`NaN` frame. -/
def prefixCell (slate : List SlateRow) (bc : BattersCorr) (pc : Option ℚ)
    (L : List SlateRow) (x y : String) : Option ℚ :=
  L.foldl (cellStep slate bc pc x y) none

/-- Closed form for a cell of the fully assembled matrix. -/
def finalCell (slate : List SlateRow) (bc : BattersCorr) (pc : Option ℚ)
    (x y : String) : Option ℚ :=
  prefixCell slate bc pc slate x y

/-- Validity conditions on a slate used throughout: distinct names, every
batter's designated opposing pitcher present as a pitcher row, every
batter's order slot present in the historical index. -/
structure ValidSlate (slate : List SlateRow) (bc : BattersCorr) : Prop where
  nodup : (slate.map SlateRow.Name).Nodup
  opp : ∀ r ∈ slate, r.Position ≠ "P" →
    ∃ q, q ∈ slate ∧ q.Name = r.Opp_Pitcher ∧ q.Position = "P"
  orders : ∀ r ∈ slate, r.Position ≠ "P" → r.Order ∈ bc.slots

/-! ### List utilities -/

theorem find?_name_eq_none {l : List SlateRow} {x : String}
    (h : x ∉ l.map SlateRow.Name) :
    l.find? (fun s => decide (s.Name = x)) = none := by
  induction l with
  | nil => rfl
  | cons a l ih =>
    simp only [List.map_cons, List.mem_cons, not_or] at h
    rw [List.find?_cons]
    have : decide (a.Name = x) = false := by
      simp only [decide_eq_false_iff_not]
      exact fun hax => h.1 hax.symm
    rw [this]
    exact ih h.2

theorem find?_name_eq_some {l : List SlateRow} {x : String} {t : SlateRow}
    (hnd : (l.map SlateRow.Name).Nodup) (ht : t ∈ l) (hx : t.Name = x) :
    l.find? (fun s => decide (s.Name = x)) = some t := by
  induction l with
  | nil => cases ht
  | cons a l ih =>
    rw [List.map_cons, List.nodup_cons] at hnd
    rw [List.find?_cons]
    rcases List.mem_cons.mp ht with h | h
    · subst h
      rw [show decide (t.Name = x) = true by simp [hx]]
    · by_cases hax : a.Name = x
      · exfalso
        apply hnd.1
        rw [hax, ← hx]
        exact List.mem_map_of_mem SlateRow.Name h
      · rw [show decide (a.Name = x) = false by simp [hax]]
        exact ih hnd.2 h

theorem name_unique {slate : List SlateRow}
    (hnd : (slate.map SlateRow.Name).Nodup) {r₁ r₂ : SlateRow}
    (h₁ : r₁ ∈ slate) (h₂ : r₂ ∈ slate) (h : r₁.Name = r₂.Name) : r₁ = r₂ := by
  have e₁ := find?_name_eq_some hnd h₁ h
  have e₂ := find?_name_eq_some hnd h₂ rfl
  rw [e₁] at e₂
  exact Option.some.inj e₂

theorem filter_names_nodup {slate : List SlateRow}
    (hnd : (slate.map SlateRow.Name).Nodup) (f : SlateRow → Bool) :
    ((slate.filter f).map SlateRow.Name).Nodup :=
  hnd.sublist
    ((List.filter_sublist slate : List.Sublist (slate.filter f) slate).map SlateRow.Name)

theorem teamFind_eq_some {slate : List SlateRow}
    (hnd : (slate.map SlateRow.Name).Nodup) {r t : SlateRow} {x : String}
    (ht : t ∈ slate) (hteam : t.Team = r.Team) (hx : t.Name = x) :
    teamFind slate r x = some t := by
  unfold teamFind
  apply find?_name_eq_some (filter_names_nodup hnd _) _ hx
  rw [List.mem_filter]
  exact ⟨ht, by simp [hteam]⟩

theorem teamFind_mem {slate : List SlateRow} {r t : SlateRow} {x : String}
    (h : teamFind slate r x = some t) :
    t ∈ slate ∧ t.Team = r.Team ∧ t.Name = x := by
  unfold teamFind at h
  have hmem := List.mem_of_find?_eq_some h
  have hprop := List.find?_some h
  rw [List.mem_filter] at hmem
  refine ⟨hmem.1, ?_, ?_⟩
  · have := hmem.2
    simpa using this
  · simpa using hprop

theorem teamFind_eq_none {slate : List SlateRow} {r : SlateRow} {x : String}
    (h : ∀ t ∈ slate, t.Name = x → ¬(t.Team = r.Team)) :
    teamFind slate r x = none := by
  unfold teamFind
  apply find?_name_eq_none
  intro hx
  rcases List.mem_map.mp hx with ⟨t, htmem, htname⟩
  rw [List.mem_filter] at htmem
  exact h t htmem.1 htname (by simpa using htmem.2)

/-! ### Characterization of the inner teammate loop -/

/-- Closed form for a cell after batter `r`'s teammate loop has run over
the team rows `ts`, starting from matrix `c`. -/
def tmCell (r : SlateRow) (bc : BattersCorr) (ts : List SlateRow) (c : CorrM)
    (x y : String) : Option ℚ :=
  if x = r.Name then
    match ts.find? (fun t => decide (t.Name = y)) with
    | some t => teammateVal r t bc
    | none => c x y
  else if y = r.Name then
    match ts.find? (fun t => decide (t.Name = x)) with
    | some t => teammateVal r t bc
    | none => c x y
  else c x y

theorem teammates_char (r : SlateRow) (bc : BattersCorr) :
    ∀ (ts : List SlateRow) (c : CorrM),
      (ts.map SlateRow.Name).Nodup →
      r.Order ∈ bc.slots →
      (∀ t ∈ ts, t.Position ≠ "P" → t.Order ∈ bc.slots) →
      ∃ c', ts.foldlM (teammateStep r bc) c = Except.ok c' ∧
        ∀ x y, c' x y = tmCell r bc ts c x y := by
  intro ts
  induction ts with
  | nil =>
    intro c _ _ _
    refine ⟨c, rfl, ?_⟩
    intro x y
    unfold tmCell
    split
    · rfl
    · split <;> rfl
  | cons t ts ih =>
    intro c hnd hro hto
    rw [List.map_cons, List.nodup_cons] at hnd
    -- the first iteration succeeds and writes `teammateVal r t bc` symmetrically
    have hstep : teammateStep r bc c t =
        Except.ok (setCell (setCell c r.Name t.Name (teammateVal r t bc))
          t.Name r.Name (teammateVal r t bc)) := by
      unfold teammateStep teammateVal
      by_cases hp : t.Position = "P"
      · rw [if_pos hp, if_pos hp]
      · rw [if_neg hp, if_neg hp]
        unfold bcLookup
        rw [if_pos ⟨hro, hto t (List.mem_cons_self t ts) hp⟩]
    set v := teammateVal r t bc with hv
    set c1 := setCell (setCell c r.Name t.Name v) t.Name r.Name v with hc1
    obtain ⟨c', hfold, hcells⟩ :=
      ih c1 hnd.2 hro (fun s hs => hto s (List.mem_cons_of_mem t hs))
    refine ⟨c', ?_, ?_⟩
    · rw [List.foldlM_cons, hstep]
      exact hfold
    · intro x y
      rw [hcells x y]
      unfold tmCell
      by_cases hxr : x = r.Name
      · rw [if_pos hxr, if_pos hxr, List.find?_cons]
        by_cases hty : t.Name = y
        · rw [show (decide (t.Name = y)) = true by simp [hty]]
          have hnone : ts.find? (fun s => decide (s.Name = y)) = none :=
            find?_name_eq_none (by rw [← hty]; exact hnd.1)
          rw [hnone]
          show c1 x y = v
          rw [hc1]
          unfold setCell
          by_cases houter : x = t.Name ∧ y = r.Name
          · rw [if_pos houter]
          · rw [if_neg houter, if_pos ⟨hxr, hty.symm⟩]
        · rw [show (decide (t.Name = y)) = false by simp [hty]]
          cases hfind : ts.find? (fun s => decide (s.Name = y)) with
          | some t'' => rfl
          | none =>
            show c1 x y = c x y
            rw [hc1]
            unfold setCell
            have houter : ¬(x = t.Name ∧ y = r.Name) := by
              rintro ⟨hxt, hyr2⟩
              exact hty (hxt.symm.trans (hxr.trans hyr2.symm))
            have hinner : ¬(x = r.Name ∧ y = t.Name) := by
              rintro ⟨-, h⟩
              exact hty h.symm
            rw [if_neg houter, if_neg hinner]
      · rw [if_neg hxr, if_neg hxr]
        by_cases hyr : y = r.Name
        · rw [if_pos hyr, if_pos hyr, List.find?_cons]
          by_cases htx : t.Name = x
          · rw [show (decide (t.Name = x)) = true by simp [htx]]
            have hnone : ts.find? (fun s => decide (s.Name = x)) = none :=
              find?_name_eq_none (by rw [← htx]; exact hnd.1)
            rw [hnone]
            show c1 x y = v
            rw [hc1]
            unfold setCell
            rw [if_pos ⟨htx.symm, hyr⟩]
          · rw [show (decide (t.Name = x)) = false by simp [htx]]
            cases hfind : ts.find? (fun s => decide (s.Name = x)) with
            | some t'' => rfl
            | none =>
              show c1 x y = c x y
              rw [hc1]
              unfold setCell
              have houter : ¬(x = t.Name ∧ y = r.Name) := by
                rintro ⟨hxt, -⟩
                exact htx hxt.symm
              have hinner : ¬(x = r.Name ∧ y = t.Name) := by
                rintro ⟨hxr', -⟩
                exact hxr hxr'
              rw [if_neg houter, if_neg hinner]
        · rw [if_neg hyr, if_neg hyr]
          show c1 x y = c x y
          rw [hc1]
          unfold setCell
          have houter : ¬(x = t.Name ∧ y = r.Name) := by
            rintro ⟨-, hyr'⟩
            exact hyr hyr'
          have hinner : ¬(x = r.Name ∧ y = t.Name) := by
            rintro ⟨hxr', -⟩
            exact hxr hxr'
          rw [if_neg houter, if_neg hinner]

/-! ### Fold lemmas for the cell model -/

theorem prefixCell_snoc (slate : List SlateRow) (bc : BattersCorr) (pc : Option ℚ)
    (L : List SlateRow) (r : SlateRow) (x y : String) :
    prefixCell slate bc pc (L ++ [r]) x y =
      cellStep slate bc pc x y (prefixCell slate bc pc L x y) r := by
  unfold prefixCell
  rw [List.foldl_append]
  rfl

theorem foldl_cellStep_no_writer (slate : List SlateRow) (bc : BattersCorr)
    (pc : Option ℚ) (x y : String) :
    ∀ (L : List SlateRow) (v : Option ℚ), (∀ r ∈ L, ¬ writes slate r x y) →
      L.foldl (cellStep slate bc pc x y) v = v := by
  intro L
  induction L with
  | nil => intro v _; rfl
  | cons a L ih =>
    intro v hw
    rw [List.foldl_cons]
    have ha : cellStep slate bc pc x y v a = v := by
      unfold cellStep
      rw [if_neg (hw a (List.mem_cons_self a L))]
    rw [ha]
    exact ih v fun s hs => hw s (List.mem_cons_of_mem a hs)

theorem prefixCell_no_writer (slate : List SlateRow) (bc : BattersCorr)
    (pc : Option ℚ) (L : List SlateRow) (x y : String)
    (h : ∀ r ∈ L, ¬ writes slate r x y) : prefixCell slate bc pc L x y = none :=
  foldl_cellStep_no_writer slate bc pc x y L none h

theorem foldl_cellStep_agree (slate : List SlateRow) (bc : BattersCorr)
    (pc : Option ℚ) (x y : String) (w : Option ℚ) :
    ∀ (L : List SlateRow) (v : Option ℚ), (∃ r ∈ L, writes slate r x y) →
      (∀ r ∈ L, writes slate r x y → stepVal slate bc pc r x y = w) →
      L.foldl (cellStep slate bc pc x y) v = w := by
  intro L
  induction L with
  | nil => rintro v ⟨r, hr, -⟩ _; cases hr
  | cons a L ih =>
    intro v hex hall
    rw [List.foldl_cons]
    by_cases ha : writes slate a x y
    · have hstep : cellStep slate bc pc x y v a = w := by
        unfold cellStep
        rw [if_pos ha]
        exact hall a (List.mem_cons_self a L) ha
      rw [hstep]
      by_cases hexL : ∃ r ∈ L, writes slate r x y
      · exact ih w hexL fun s hs hws => hall s (List.mem_cons_of_mem a hs) hws
      · push_neg at hexL
        exact foldl_cellStep_no_writer slate bc pc x y L w hexL
    · have hstep : cellStep slate bc pc x y v a = v := by
        unfold cellStep
        rw [if_neg ha]
      rw [hstep]
      rcases hex with ⟨s, hs, hws⟩
      rcases List.mem_cons.mp hs with hsa | hsL
      · exact absurd (hsa ▸ hws) ha
      · exact ih v ⟨s, hsL, hws⟩ fun s' hs' hws' =>
          hall s' (List.mem_cons_of_mem a hs') hws'

/-! ### One outer-loop iteration, cell by cell -/

theorem processRow_cells (slate : List SlateRow) (bc : BattersCorr) (pc : Option ℚ)
    (h : ValidSlate slate bc) (L R' : List SlateRow) (r : SlateRow)
    (hsplit : slate = L ++ r :: R') (c : CorrM)
    (hc : ∀ x y, x ∈ slateNames slate → y ∈ slateNames slate →
      c x y = prefixCell slate bc pc L x y) :
    ∃ c', processRow slate bc pc c r = Except.ok c' ∧
      ∀ x y, x ∈ slateNames slate → y ∈ slateNames slate →
        c' x y = cellStep slate bc pc x y (prefixCell slate bc pc L x y) r := by
  have hrmem : r ∈ slate := by
    rw [hsplit]
    exact List.mem_append.mpr (Or.inr (List.mem_cons_self r R'))
  have hLsub : ∀ s ∈ L, s ∈ slate := by
    intro s hs
    rw [hsplit]
    exact List.mem_append.mpr (Or.inl hs)
  have hrL : r.Name ∉ L.map SlateRow.Name := by
    have hnd2 := h.nodup
    rw [hsplit, List.map_append, List.map_cons] at hnd2
    exact fun hmem =>
      (List.nodup_cons.mp (List.nodup_middle.mp hnd2)).1
        (List.mem_append.mpr (Or.inl hmem))
  by_cases hp : r.Position = "P"
  · -- pitcher row: diagonal 1, rest of the row zeroed
    refine ⟨pitcherRowZero (slateNames slate) (setCell c r.Name r.Name (some 1)) r.Name,
      ?_, ?_⟩
    · unfold processRow
      rw [if_pos hp]
    · intro x y hxn hyn
      unfold cellStep
      by_cases hx : r.Name = x
      · rw [if_pos (show writes slate r x y from Or.inl hx)]
        unfold stepVal
        rw [if_pos hx]
        by_cases hyx : y = x
        · rw [if_pos hyx]
          unfold pitcherRowZero setCell diagVal
          rw [if_neg (by rintro ⟨-, hne, -⟩; exact hne (hyx.trans hx.symm)),
            if_pos ⟨hx.symm, hyx.trans hx.symm⟩, if_pos hp]
        · rw [if_neg hyx]
          unfold pitcherRowZero rowVal
          rw [if_pos ⟨hx.symm, fun hy => hyx (hy.trans hx), hyn⟩, if_pos hp]
      · rw [if_neg (show ¬ writes slate r x y by
          rintro (hx' | ⟨-, hp', -⟩); exact hx hx'; exact hp' hp)]
        unfold pitcherRowZero setCell
        rw [if_neg (by rintro ⟨hx', -⟩; exact hx hx'.symm),
          if_neg (by rintro ⟨hx', -⟩; exact hx hx'.symm)]
        exact hc x y hxn hyn
  · -- batter row
    obtain ⟨q, hqmem, hqname, hqpos⟩ := h.opp r hrmem hp
    have hOPne : r.Opp_Pitcher ≠ r.Name := by
      intro hEq
      have : q = r := name_unique h.nodup hqmem hrmem (hqname.trans hEq)
      rw [this] at hqpos
      exact hp hqpos
    have hr_ord : r.Order ∈ bc.slots := h.orders r hrmem hp
    have hts_nodup :
        ((slate.filter (fun t => decide (t.Team = r.Team))).map SlateRow.Name).Nodup :=
      filter_names_nodup h.nodup _
    have hts_ord : ∀ t ∈ slate.filter (fun t => decide (t.Team = r.Team)),
        t.Position ≠ "P" → t.Order ∈ bc.slots := by
      intro t ht
      exact h.orders t (List.mem_filter.mp ht).1
    obtain ⟨c2, hfold, hcells2⟩ := teammates_char r bc
      (slate.filter (fun t => decide (t.Team = r.Team)))
      (setCell c r.Name r.Name (some 1)) hts_nodup hr_ord hts_ord
    have hrts : r ∈ slate.filter (fun t => decide (t.Team = r.Team)) :=
      List.mem_filter.mpr ⟨hrmem, by simp⟩
    refine ⟨nanFillRow (slateNames slate)
      (setCell (setCell c2 r.Name r.Opp_Pitcher pc) r.Opp_Pitcher r.Name pc) r.Name,
      ?_, ?_⟩
    · unfold processRow
      rw [if_neg hp, hfold]
    · intro x y hxn hyn
      unfold cellStep
      have hnf : nanFillRow (slateNames slate)
          (setCell (setCell c2 r.Name r.Opp_Pitcher pc) r.Opp_Pitcher r.Name pc) r.Name x y
          = setCell (setCell c2 r.Name r.Opp_Pitcher pc) r.Opp_Pitcher r.Name pc x y ∨
          r.Name = x := by
        by_cases hx : r.Name = x
        · exact Or.inr hx
        · refine Or.inl ?_
          unfold nanFillRow
          rw [if_neg (by rintro ⟨hx', -⟩; exact hx hx'.symm)]
      by_cases hx : r.Name = x
      · rw [if_pos (show writes slate r x y from Or.inl hx)]
        unfold stepVal
        rw [if_pos hx]
        by_cases hyx : y = x
        · -- diagonal cell of the batter's own row
          rw [if_pos hyx]
          have hyr : y = r.Name := hyx.trans hx.symm
          have hfind : (slate.filter (fun t => decide (t.Team = r.Team))).find?
              (fun s => decide (s.Name = y)) = some r :=
            find?_name_eq_some hts_nodup hrts (by rw [hyr])
          have h2 : c2 x y = bc.val r.Order r.Order := by
            rw [hcells2 x y]
            unfold tmCell
            rw [if_pos hx.symm, hfind]
            show teammateVal r r bc = bc.val r.Order r.Order
            unfold teammateVal
            rw [if_neg hp]
          have h3 : setCell (setCell c2 r.Name r.Opp_Pitcher pc) r.Opp_Pitcher r.Name pc x y
              = bc.val r.Order r.Order := by
            unfold setCell
            rw [if_neg (by rintro ⟨hxop, -⟩; exact hOPne (hxop.symm.trans hx.symm)),
              if_neg (by rintro ⟨-, hyop⟩; exact hOPne ((hyr.symm.trans hyop).symm)), h2]
          unfold diagVal
          rw [if_neg hp]
          unfold nanFillRow
          rw [h3]
          cases hbv : bc.val r.Order r.Order with
          | none => rw [if_pos ⟨hx.symm, hyn, rfl⟩]; rfl
          | some a => rw [if_neg (by rintro ⟨-, -, hn⟩; cases hn)]; rfl
        · -- off-diagonal cell of the batter's own row
          rw [if_neg hyx]
          have hyner : y ≠ r.Name := fun hy => hyx (hy.trans hx)
          unfold rowVal
          rw [if_neg hp]
          by_cases hyOP : y = r.Opp_Pitcher
          · rw [if_pos hyOP]
            have h3 : setCell (setCell c2 r.Name r.Opp_Pitcher pc) r.Opp_Pitcher r.Name pc x y
                = pc := by
              unfold setCell
              rw [if_neg (by rintro ⟨hxop, -⟩; exact hOPne (hxop.symm.trans hx.symm)),
                if_pos ⟨hx.symm, hyOP⟩]
            unfold nanFillRow
            rw [h3]
            cases pc with
            | none => rw [if_pos ⟨hx.symm, hyn, rfl⟩]; rfl
            | some v => rw [if_neg (by rintro ⟨-, -, hn⟩; cases hn)]; rfl
          · rw [if_neg hyOP]
            cases hfind : teamFind slate r y with
            | some t =>
              have h2 : c2 x y = teammateVal r t bc := by
                rw [hcells2 x y]
                unfold tmCell
                rw [if_pos hx.symm,
                  show (slate.filter (fun t => decide (t.Team = r.Team))).find?
                    (fun s => decide (s.Name = y)) = some t from hfind]
              have h3 : setCell (setCell c2 r.Name r.Opp_Pitcher pc) r.Opp_Pitcher r.Name pc x y
                  = teammateVal r t bc := by
                unfold setCell
                rw [if_neg (by rintro ⟨hxop, -⟩; exact hOPne (hxop.symm.trans hx.symm)),
                  if_neg (by rintro ⟨-, hyop⟩; exact hyOP hyop), h2]
              by_cases htp : t.Position = "P"
              · have h3' : setCell (setCell c2 r.Name r.Opp_Pitcher pc) r.Opp_Pitcher r.Name pc x y
                    = some 0 :=
                  h3.trans (show teammateVal r t bc = some 0 by
                    unfold teammateVal; rw [if_pos htp])
                unfold nanFillRow
                rw [h3', if_neg (by rintro ⟨-, -, hn⟩; cases hn)]
                show (some (0 : ℚ)) = if t.Position = "P" then some 0
                  else some ((bc.val r.Order t.Order).getD 0)
                rw [if_pos htp]
              · have h3' : setCell (setCell c2 r.Name r.Opp_Pitcher pc) r.Opp_Pitcher r.Name pc x y
                    = bc.val r.Order t.Order :=
                  h3.trans (show teammateVal r t bc = bc.val r.Order t.Order by
                    unfold teammateVal; rw [if_neg htp])
                unfold nanFillRow
                rw [h3']
                show _ = if t.Position = "P" then some 0
                  else some ((bc.val r.Order t.Order).getD 0)
                rw [if_neg htp]
                cases hbv : bc.val r.Order t.Order with
                | none => rw [if_pos ⟨hx.symm, hyn, rfl⟩]; rfl
                | some a => rw [if_neg (by rintro ⟨-, -, hn⟩; cases hn)]; rfl
            | none =>
              have hnone : c x y = none := by
                rw [hc x y hxn hyn]
                apply prefixCell_no_writer
                intro s hs hw
                rcases hw with hsx | ⟨hsy, hsbat, hrel⟩
                · exact hrL (by rw [hx, ← hsx]; exact List.mem_map_of_mem SlateRow.Name hs)
                · rcases hrel with hxop | hfindx
                  · obtain ⟨q', hq'mem, hq'name, hq'pos⟩ := h.opp s (hLsub s hs) hsbat
                    have hq'r : q' = r := name_unique h.nodup hq'mem hrmem
                      (by rw [hq'name, ← hxop, ← hx])
                    rw [hq'r] at hq'pos
                    exact hp hq'pos
                  · rcases Option.isSome_iff_exists.mp hfindx with ⟨t', hft'⟩
                    obtain ⟨ht'mem, ht'team, ht'name⟩ := teamFind_mem hft'
                    have ht'r : t' = r := name_unique h.nodup ht'mem hrmem
                      (by rw [ht'name, ← hx])
                    have hteam : s.Team = r.Team := by rw [← ht'team, ht'r]
                    have hfy : teamFind slate r y = some s :=
                      teamFind_eq_some h.nodup (hLsub s hs) hteam hsy
                    rw [hfy] at hfind
                    exact Option.noConfusion hfind
              have h3 : setCell (setCell c2 r.Name r.Opp_Pitcher pc) r.Opp_Pitcher r.Name pc x y
                  = none := by
                unfold setCell
                rw [if_neg (by rintro ⟨hxop, -⟩; exact hOPne (hxop.symm.trans hx.symm)),
                  if_neg (by rintro ⟨-, hyop⟩; exact hyOP hyop)]
                rw [hcells2 x y]
                unfold tmCell
                rw [if_pos hx.symm,
                  show (slate.filter (fun t => decide (t.Team = r.Team))).find?
                    (fun s => decide (s.Name = y)) = none from hfind]
                show setCell c r.Name r.Name (some 1) x y = none
                unfold setCell
                rw [if_neg (by rintro ⟨-, hyr'⟩; exact hyner hyr')]
                exact hnone
              unfold nanFillRow
              rw [h3, if_pos ⟨hx.symm, hyn, rfl⟩]
      · rcases hnf with hnf | hbad
        swap
        · exact absurd hbad hx
        by_cases hy : r.Name = y
        · by_cases hw : x = r.Opp_Pitcher ∨ (teamFind slate r x).isSome = true
          · -- column write into (x, r.Name)
            rw [if_pos (show writes slate r x y from Or.inr ⟨hy, hp, hw⟩)]
            unfold stepVal
            rw [if_neg hx]
            unfold colVal
            rw [hnf]
            by_cases hxOP : x = r.Opp_Pitcher
            · rw [if_pos hxOP]
              unfold setCell
              rw [if_pos ⟨hxOP, hy.symm⟩]
            · have hfindx : (teamFind slate r x).isSome = true := hw.resolve_left hxOP
              rcases Option.isSome_iff_exists.mp hfindx with ⟨t, hft⟩
              rw [if_neg hxOP, hft]
              unfold setCell
              rw [if_neg (by rintro ⟨hxop, -⟩; exact hxOP hxop),
                if_neg (by rintro ⟨hxr', -⟩; exact hx hxr'.symm)]
              rw [hcells2 x y]
              unfold tmCell
              rw [if_neg (fun hxr' => hx hxr'.symm), if_pos hy.symm,
                show (slate.filter (fun t => decide (t.Team = r.Team))).find?
                  (fun s => decide (s.Name = x)) = some t from hft]
              rfl
          · -- row r does not touch (x, r.Name)
            rw [if_neg (show ¬ writes slate r x y by
              rintro (hx' | ⟨-, -, hrel⟩); exact hx hx'; exact hw hrel)]
            push_neg at hw
            have hfnone : teamFind slate r x = none :=
              Option.not_isSome_iff_eq_none.mp hw.2
            rw [hnf]
            unfold setCell
            rw [if_neg (by rintro ⟨hxop, -⟩; exact hw.1 hxop),
              if_neg (by rintro ⟨hxr', -⟩; exact hx hxr'.symm)]
            rw [hcells2 x y]
            unfold tmCell
            rw [if_neg (fun hxr' => hx hxr'.symm), if_pos hy.symm,
              show (slate.filter (fun t => decide (t.Team = r.Team))).find?
                (fun s => decide (s.Name = x)) = none from hfnone]
            show setCell c r.Name r.Name (some 1) x y = prefixCell slate bc pc L x y
            unfold setCell
            rw [if_neg (by rintro ⟨hxr', -⟩; exact hx hxr'.symm)]
            exact hc x y hxn hyn
        · -- row r touches neither index
          rw [if_neg (show ¬ writes slate r x y by
            rintro (hx' | ⟨hy', -, -⟩); exact hx hx'; exact hy hy')]
          rw [hnf]
          unfold setCell
          rw [if_neg (by rintro ⟨-, hy'⟩; exact hy hy'.symm),
            if_neg (by rintro ⟨hxr', -⟩; exact hx hxr'.symm)]
          rw [hcells2 x y]
          unfold tmCell
          rw [if_neg (fun hxr' => hx hxr'.symm), if_neg (fun hyr' => hy hyr'.symm)]
          show setCell c r.Name r.Name (some 1) x y = prefixCell slate bc pc L x y
          unfold setCell
          rw [if_neg (by rintro ⟨hxr', -⟩; exact hx hxr'.symm)]
          exact hc x y hxn hyn

/-! ### The assembled matrix, cell by cell -/

theorem assemble_go (slate : List SlateRow) (bc : BattersCorr) (pc : Option ℚ)
    (h : ValidSlate slate bc) :
    ∀ (R L : List SlateRow), slate = L ++ R → ∀ c : CorrM,
      (∀ x y, x ∈ slateNames slate → y ∈ slateNames slate →
        c x y = prefixCell slate bc pc L x y) →
      ∃ c', R.foldlM (processRow slate bc pc) c = Except.ok c' ∧
        ∀ x y, x ∈ slateNames slate → y ∈ slateNames slate →
          c' x y = prefixCell slate bc pc (L ++ R) x y := by
  intro R
  induction R with
  | nil =>
    intro L hsplit c hc
    refine ⟨c, rfl, ?_⟩
    intro x y hx hy
    rw [List.append_nil]
    exact hc x y hx hy
  | cons r R ih =>
    intro L hsplit c hc
    obtain ⟨c1, hstep, hcells⟩ := processRow_cells slate bc pc h L R r hsplit c hc
    have hsplit' : slate = (L ++ [r]) ++ R := by
      rw [hsplit, List.append_assoc]
      rfl
    have hc1 : ∀ x y, x ∈ slateNames slate → y ∈ slateNames slate →
        c1 x y = prefixCell slate bc pc (L ++ [r]) x y := by
      intro x y hx hy
      rw [hcells x y hx hy, prefixCell_snoc]
    obtain ⟨c', hfold, hcells'⟩ := ih (L ++ [r]) hsplit' c1 hc1
    refine ⟨c', ?_, ?_⟩
    · rw [List.foldlM_cons, hstep]
      exact hfold
    · intro x y hx hy
      rw [hcells' x y hx hy]
      have hl : (L ++ [r]) ++ R = L ++ r :: R := by
        rw [List.append_assoc]
        rfl
      rw [hl]

theorem assemble_cells (slate : List SlateRow) (bc : BattersCorr) (pc : Option ℚ)
    (h : ValidSlate slate bc) :
    ∃ c, assemble slate bc pc = Except.ok c ∧
      ∀ x y, x ∈ slateNames slate → y ∈ slateNames slate →
        c x y = finalCell slate bc pc x y := by
  obtain ⟨c, hok, hcells⟩ := assemble_go slate bc pc h slate [] rfl initCorr
    (by intro x y _ _; rfl)
  exact ⟨c, hok, fun x y hx hy => hcells x y hx hy⟩

theorem assemble_cellOf (slate : List SlateRow) (bc : BattersCorr) (pc : Option ℚ)
    (h : ValidSlate slate bc) (x y : String)
    (hx : x ∈ slateNames slate) (hy : y ∈ slateNames slate) :
    cellOf (assemble slate bc pc) x y = some (finalCell slate bc pc x y) := by
  obtain ⟨c, hok, hcells⟩ := assemble_cells slate bc pc h
  unfold cellOf
  rw [hok]
  show some (c x y) = some (finalCell slate bc pc x y)
  rw [hcells x y hx hy]

/-! ### Last-writer analysis of `finalCell` -/

theorem finalCell_agree (slate : List SlateRow) (bc : BattersCorr) (pc : Option ℚ)
    (x y : String) (w : Option ℚ)
    (hex : ∃ r ∈ slate, writes slate r x y)
    (hall : ∀ r ∈ slate, writes slate r x y → stepVal slate bc pc r x y = w) :
    finalCell slate bc pc x y = w :=
  foldl_cellStep_agree slate bc pc x y w slate none hex hall

theorem prefixCell_suffix_agree (slate : List SlateRow) (bc : BattersCorr)
    (pc : Option ℚ) (x y : String) (L1 L2 : List SlateRow) (w : Option ℚ)
    (hex : ∃ r ∈ L2, writes slate r x y)
    (hall : ∀ r ∈ L2, writes slate r x y → stepVal slate bc pc r x y = w) :
    prefixCell slate bc pc (L1 ++ L2) x y = w := by
  unfold prefixCell
  rw [List.foldl_append]
  exact foldl_cellStep_agree slate bc pc x y w L2 _ hex hall

theorem writes_name {slate : List SlateRow} {s : SlateRow} {x y : String}
    (h : writes slate s x y) : s.Name = x ∨ s.Name = y :=
  h.elim Or.inl (fun h2 => Or.inr h2.1)

/-! ## Concrete slates and tables used as witnesses and counterexamples -/

/-- A batter on team `A`, order slot 1, opposing pitcher `q`. -/
def rowB : SlateRow := ⟨"b", "b", "B", "A", 1, "q"⟩

/-- A starting pitcher on team `Z`. -/
def rowQ : SlateRow := ⟨"q", "q", "P", "Z", 0, ""⟩

/-- A batter on team `A`, order slot 1, opposing pitcher `q`. -/
def rowA : SlateRow := ⟨"a", "a", "B", "A", 1, "q"⟩

/-- A batter on team `A`, order slot 2, opposing pitcher `q`. -/
def rowC : SlateRow := ⟨"c", "c", "B", "A", 2, "q"⟩

/-- A second starting pitcher, on team `W`. -/
def rowP2 : SlateRow := ⟨"w", "w", "P", "W", 0, ""⟩

/-- A batter whose order slot 10 is absent from the historical index. -/
def rowX10 : SlateRow := ⟨"x", "x", "B", "A", 10, "q"⟩

/-- Historical order table with slots 1 and 2, diagonal 1, and an
undefined (`NaN`) off-diagonal entry. -/
def bcEx : BattersCorr := ⟨[1, 2], fun o1 o2 => if o1 = o2 then some 1 else none⟩

/-- Historical order table with slots 1 and 2, diagonal 1, defined
symmetric off-diagonal entries. -/
def bcSym : BattersCorr := ⟨[1, 2], fun o1 o2 => if o1 = o2 then some 1 else some 3⟩

/-- A defined pitcher-opponent correlation scalar. -/
def pcEx : Option ℚ := some 2

/-- Slate listing the batter before its opposing pitcher. -/
def slateBQ : List SlateRow := [rowB, rowQ]

/-- The same two rows, pitcher first. -/
def slateQB : List SlateRow := [rowQ, rowB]

/-- Two same-team batters (order slots 1 and 2) and their opposing pitcher. -/
def slateAC : List SlateRow := [rowA, rowC, rowQ]

/-- Two pitchers from different games. -/
def slate2P : List SlateRow := [rowQ, rowP2]

/-- A slate containing a batter with out-of-range order slot 10. -/
def slateMiss : List SlateRow := [rowX10, rowQ]

/-! ## Error propagation: a missing order slot is a fatal lookup failure -/

theorem foldlM_ok_or_key {α β : Type} (f : α → β → Except String α)
    (hall : ∀ c b, (∃ x, f c b = Except.ok x) ∨ f c b = Except.error "KeyError") :
    ∀ (l : List β) (c : α),
      (∃ x, l.foldlM f c = Except.ok x) ∨ l.foldlM f c = Except.error "KeyError" := by
  intro l
  induction l with
  | nil => intro c; exact Or.inl ⟨c, rfl⟩
  | cons b l ih =>
    intro c
    rw [List.foldlM_cons]
    rcases hall c b with ⟨x, hx⟩ | herr
    · rw [hx]
      exact ih x
    · rw [herr]
      exact Or.inr rfl

theorem foldlM_lookup_err {α β : Type} (f : α → β → Except String α)
    (hall : ∀ c b, (∃ x, f c b = Except.ok x) ∨ f c b = Except.error "KeyError")
    (a : β) (herr : ∀ c, f c a = Except.error "KeyError") :
    ∀ (l : List β), a ∈ l → ∀ c, l.foldlM f c = Except.error "KeyError" := by
  intro l
  induction l with
  | nil => intro ha; cases ha
  | cons b l ih =>
    intro ha c
    rw [List.foldlM_cons]
    rcases List.mem_cons.mp ha with hab | hal
    · rw [show f c b = Except.error "KeyError" from hab ▸ herr c]
      rfl
    · rcases hall c b with ⟨x, hx⟩ | hkey
      · rw [hx]
        exact ih hal x
      · rw [hkey]
        rfl

theorem teammateStep_ok_or_key (r : SlateRow) (bc : BattersCorr) :
    ∀ (c : CorrM) (t : SlateRow), (∃ x, teammateStep r bc c t = Except.ok x) ∨
      teammateStep r bc c t = Except.error "KeyError" := by
  intro c t
  unfold teammateStep
  by_cases htp : t.Position = "P"
  · rw [if_pos htp]
    exact Or.inl ⟨_, rfl⟩
  · rw [if_neg htp]
    unfold bcLookup
    by_cases hmem : r.Order ∈ bc.slots ∧ t.Order ∈ bc.slots
    · rw [if_pos hmem]
      exact Or.inl ⟨_, rfl⟩
    · rw [if_neg hmem]
      exact Or.inr rfl

theorem processRow_ok_or_key (slate : List SlateRow) (bc : BattersCorr) (pc : Option ℚ) :
    ∀ (c : CorrM) (r : SlateRow), (∃ x, processRow slate bc pc c r = Except.ok x) ∨
      processRow slate bc pc c r = Except.error "KeyError" := by
  intro c r
  unfold processRow
  by_cases hp : r.Position = "P"
  · rw [if_pos hp]
    exact Or.inl ⟨_, rfl⟩
  · rw [if_neg hp]
    rcases foldlM_ok_or_key (teammateStep r bc) (teammateStep_ok_or_key r bc)
      (slate.filter (fun t => decide (t.Team = r.Team)))
      (setCell c r.Name r.Name (some 1)) with ⟨c2, hc2⟩ | herr
    · rw [hc2]
      exact Or.inl ⟨_, rfl⟩
    · rw [herr]
      exact Or.inr rfl

theorem nodup_split_names {L1 L2 : List SlateRow}
    (hnd : ((L1 ++ L2).map SlateRow.Name).Nodup) {a b : SlateRow}
    (ha : a ∈ L1) (hb : b ∈ L2) (hab : a.Name = b.Name) : False := by
  rw [List.map_append] at hnd
  rcases List.nodup_append.mp hnd with ⟨-, -, hdisj⟩
  exact hdisj (List.mem_map_of_mem SlateRow.Name ha)
    (hab ▸ List.mem_map_of_mem SlateRow.Name hb)

/-! ## Claims -/

/-- C5: on a valid slate whose historical order table has ones on its
diagonal (the spec's data-model invariant for
`BattingOrderCorrelationMatrix`), every diagonal entry of the assembled
matrix is exactly 1 — for pitchers via the initial self-assignment, for
batters via the re-assignment `BattingOrderCorrelationMatrix[o, o]`
performed when the teammate loop reaches the player themselves. -/
theorem claim5_diagonal_one (slate : List SlateRow) (bc : BattersCorr) (pc : Option ℚ)
    (h : ValidSlate slate bc)
    (hdiag : ∀ r ∈ slate, r.Position ≠ "P" → bc.val r.Order r.Order = some 1)
    (p : SlateRow) (hp : p ∈ slate) :
    cellOf (assemble slate bc pc) p.Name p.Name = some (some 1) := by
  have hn : p.Name ∈ slateNames slate := List.mem_map_of_mem _ hp
  rw [assemble_cellOf slate bc pc h p.Name p.Name hn hn]
  congr 1
  apply finalCell_agree
  · exact ⟨p, hp, Or.inl rfl⟩
  · intro s hs hw
    have hsp : s = p := by
      rcases writes_name hw with h1 | h1 <;> exact name_unique h.nodup hs hp h1
    subst hsp
    unfold stepVal
    rw [if_pos rfl, if_pos rfl]
    unfold diagVal
    by_cases hpp : s.Position = "P"
    · rw [if_pos hpp]
    · rw [if_neg hpp, hdiag s hp hpp]
      rfl

/-- C5 witness. -/
theorem claim5_witness :
    cellOf (assemble slateQB bcEx pcEx) "b" "b" = some (some 1) :=
  claim5_diagonal_one slateQB bcEx pcEx ⟨by decide, by decide, by decide⟩
    (by decide) rowB (by decide)

/-- C4: on a valid slate, for two distinct same-team batters whose
order-pair entry is defined and symmetric in the historical table (the
spec's data-model invariants), both mirror cells of the assembled matrix
equal that entry, independently of row order. -/
theorem claim4_same_team (slate : List SlateRow) (bc : BattersCorr) (pc : Option ℚ)
    (h : ValidSlate slate bc) (p q : SlateRow) (hp : p ∈ slate) (hq : q ∈ slate)
    (hpb : p.Position ≠ "P") (hqb : q.Position ≠ "P") (hteam : p.Team = q.Team)
    (hne : p.Name ≠ q.Name) (v : ℚ)
    (hv : bc.val p.Order q.Order = some v) (hv' : bc.val q.Order p.Order = some v) :
    cellOf (assemble slate bc pc) p.Name q.Name = some (some v) ∧
    cellOf (assemble slate bc pc) q.Name p.Name = some (some v) := by
  have main : ∀ (a b : SlateRow), a ∈ slate → b ∈ slate → a.Position ≠ "P" →
      b.Position ≠ "P" → a.Team = b.Team → a.Name ≠ b.Name →
      bc.val a.Order b.Order = some v → bc.val b.Order a.Order = some v →
      cellOf (assemble slate bc pc) a.Name b.Name = some (some v) := by
    intro a b ha hb hab hbb2 ht hne2 hv1 hv2
    have han : a.Name ∈ slateNames slate := List.mem_map_of_mem _ ha
    have hbn : b.Name ∈ slateNames slate := List.mem_map_of_mem _ hb
    rw [assemble_cellOf slate bc pc h a.Name b.Name han hbn]
    congr 1
    have hbnotop : b.Name ≠ a.Opp_Pitcher := by
      intro hEq
      obtain ⟨qq, hqqm, hqqn, hqqp⟩ := h.opp a ha hab
      have hb' : b = qq := name_unique h.nodup hb hqqm (hEq.trans hqqn.symm)
      rw [hb'] at hbb2
      exact hbb2 hqqp
    have hanotop : a.Name ≠ b.Opp_Pitcher := by
      intro hEq
      obtain ⟨qq, hqqm, hqqn, hqqp⟩ := h.opp b hb hbb2
      have ha' : a = qq := name_unique h.nodup ha hqqm (hEq.trans hqqn.symm)
      rw [ha'] at hab
      exact hab hqqp
    apply finalCell_agree
    · exact ⟨a, ha, Or.inl rfl⟩
    · intro s hs hw
      rcases writes_name hw with hsx | hsy
      · have hsa : s = a := name_unique h.nodup hs ha hsx
        subst hsa
        unfold stepVal
        rw [if_pos rfl, if_neg (fun hba => hne2 hba.symm)]
        unfold rowVal
        rw [if_neg hab, if_neg hbnotop,
          teamFind_eq_some h.nodup hb ht.symm rfl]
        show (if b.Position = "P" then some 0
          else some ((bc.val s.Order b.Order).getD 0)) = some v
        rw [if_neg hbb2, hv1]
        rfl
      · have hsb : s = b := name_unique h.nodup hs hb hsy
        subst hsb
        unfold stepVal
        rw [if_neg (fun hba => hne2 hba.symm)]
        unfold colVal
        rw [if_neg hanotop, teamFind_eq_some h.nodup ha ht rfl]
        show (if a.Position = "P" then some 0 else bc.val s.Order a.Order) = some v
        rw [if_neg hab, hv2]
  exact ⟨main p q hp hq hpb hqb hteam hne hv hv',
    main q p hq hp hqb hpb hteam.symm (fun hh => hne hh.symm) hv' hv⟩

/-- C4 witness. -/
theorem claim4_witness :
    cellOf (assemble slateAC bcSym pcEx) "a" "c" = some (some 3) ∧
    cellOf (assemble slateAC bcSym pcEx) "c" "a" = some (some 3) :=
  claim4_same_team slateAC bcSym pcEx ⟨by decide, by decide, by decide⟩
    rowA rowC (by decide) (by decide) (by decide) (by decide) (by decide)
    (by decide) 3 (by decide) (by decide)

/-- C2 (amended): on a valid slate, a pitcher's row and column entries
are 0 for every other player `q` — EXCEPT batters that designate this
pitcher as their opposing pitcher (those cells carry
`PitcherOpponentCorrelation`, see C3). -/
theorem claim2_amended (slate : List SlateRow) (bc : BattersCorr) (pc : Option ℚ)
    (h : ValidSlate slate bc) (p : SlateRow) (hp : p ∈ slate) (hpp : p.Position = "P")
    (q : SlateRow) (hq : q ∈ slate) (hne : q.Name ≠ p.Name)
    (hnd2 : ¬(q.Position ≠ "P" ∧ q.Opp_Pitcher = p.Name)) :
    cellOf (assemble slate bc pc) p.Name q.Name = some (some 0) ∧
    cellOf (assemble slate bc pc) q.Name p.Name = some (some 0) := by
  have hpn : p.Name ∈ slateNames slate := List.mem_map_of_mem _ hp
  have hqn : q.Name ∈ slateNames slate := List.mem_map_of_mem _ hq
  constructor
  · rw [assemble_cellOf slate bc pc h p.Name q.Name hpn hqn]
    congr 1
    apply finalCell_agree
    · exact ⟨p, hp, Or.inl rfl⟩
    · intro s hs hw
      rcases writes_name hw with hsx | hsy
      · have hsp : s = p := name_unique h.nodup hs hp hsx
        subst hsp
        unfold stepVal
        rw [if_pos rfl, if_neg (fun hqp' => hne hqp')]
        unfold rowVal
        rw [if_pos hpp]
      · have hsq : s = q := name_unique h.nodup hs hq hsy
        subst hsq
        rcases hw with hqx | ⟨-, hqb, hrel⟩
        · exact absurd hqx hne
        · unfold stepVal
          rw [if_neg (fun hpq => hne hpq)]
          unfold colVal
          have hqop : ¬(p.Name = s.Opp_Pitcher) := fun hop => hnd2 ⟨hqb, hop.symm⟩
          rw [if_neg hqop]
          rcases hrel with hop | hfs
          · exact absurd hop hqop
          · rcases Option.isSome_iff_exists.mp hfs with ⟨t, hft⟩
            obtain ⟨htm, htteam, htn⟩ := teamFind_mem hft
            have htp2 : t = p := name_unique h.nodup htm hp htn
            rw [hft]
            show (if t.Position = "P" then some 0 else bc.val s.Order t.Order) = some 0
            rw [if_pos (by rw [htp2]; exact hpp)]
  · rw [assemble_cellOf slate bc pc h q.Name p.Name hqn hpn]
    congr 1
    apply finalCell_agree
    · exact ⟨q, hq, Or.inl rfl⟩
    · intro s hs hw
      rcases writes_name hw with hsx | hsy
      · have hsq : s = q := name_unique h.nodup hs hq hsx
        subst hsq
        unfold stepVal
        rw [if_pos rfl, if_neg (fun hpq' => hne hpq'.symm)]
        unfold rowVal
        by_cases hqP : s.Position = "P"
        · rw [if_pos hqP]
        · rw [if_neg hqP, if_neg (fun hop => hnd2 ⟨hqP, hop.symm⟩)]
          cases hft : teamFind slate s p.Name with
          | some t =>
            obtain ⟨htm, htteam, htn⟩ := teamFind_mem hft
            have htp2 : t = p := name_unique h.nodup htm hp htn
            show (if t.Position = "P" then some 0
              else some ((bc.val s.Order t.Order).getD 0)) = some 0
            rw [if_pos (by rw [htp2]; exact hpp)]
          | none => rfl
      · have hsp : s = p := name_unique h.nodup hs hp hsy
        subst hsp
        rcases hw with hx' | ⟨-, hpb, -⟩
        · exact absurd hx'.symm hne
        · exact absurd hpp hpb

/-- C2 witness: two pitchers from different games. -/
theorem claim2_witness :
    cellOf (assemble slate2P bcEx pcEx) "q" "w" = some (some 0) ∧
    cellOf (assemble slate2P bcEx pcEx) "w" "q" = some (some 0) :=
  claim2_amended slate2P bcEx pcEx ⟨by decide, by decide, by decide⟩
    rowQ (by decide) (by decide) rowP2 (by decide) (by decide) (by decide)

/-- C2 counterexample: the claim "M[p,q] == 0 for ALL q ≠ p" fails for a
pitcher's cell against a batter that designates it: on `slateQB`
(pitcher listed first), M[q,b] = PitcherOpponentCorrelation = 2 ≠ 0. -/
theorem claim2_counterexample :
    ValidSlate slateQB bcEx ∧
    cellOf (assemble slateQB bcEx pcEx) "q" "b" = some (some 2) ∧
    cellOf (assemble slateQB bcEx pcEx) "q" "b" ≠ some (some 0) :=
  ⟨⟨by decide, by decide, by decide⟩, by decide, by decide⟩

/-- C3 (amended): on a valid slate with a defined pitcher scalar,
M[batter, opposing pitcher] = PitcherOpponentCorrelation holds in the
final matrix unconditionally (only the batter's own iteration ever
writes that cell); the mirror cell M[opposing pitcher, batter] also
equals it PROVIDED the pitcher's row precedes the batter's row in the
slate (otherwise the pitcher iteration re-zeroes it, see the
counterexample). -/
theorem claim3_amended (slate : List SlateRow) (bc : BattersCorr) (pc : Option ℚ)
    (h : ValidSlate slate bc) (v : ℚ) (hpc : pc = some v)
    (b : SlateRow) (hbmem : b ∈ slate) (hbb : b.Position ≠ "P")
    (q : SlateRow) (hqmem : q ∈ slate) (hqp : q.Position = "P")
    (hqname : q.Name = b.Opp_Pitcher) :
    cellOf (assemble slate bc pc) b.Name q.Name = some (some v) ∧
    (∀ L1 L2 : List SlateRow, slate = L1 ++ L2 → q ∈ L1 → b ∈ L2 →
      cellOf (assemble slate bc pc) q.Name b.Name = some (some v)) := by
  subst hpc
  have hbqne : b.Name ≠ q.Name := by
    intro hEq
    have hbq : b = q := name_unique h.nodup hbmem hqmem hEq
    rw [hbq] at hbb
    exact hbb hqp
  have hbn : b.Name ∈ slateNames slate := List.mem_map_of_mem _ hbmem
  have hqn : q.Name ∈ slateNames slate := List.mem_map_of_mem _ hqmem
  constructor
  · rw [assemble_cellOf slate bc (some v) h b.Name q.Name hbn hqn]
    congr 1
    apply finalCell_agree
    · exact ⟨b, hbmem, Or.inl rfl⟩
    · intro s hs hw
      rcases writes_name hw with hsx | hsy
      · have hsb : s = b := name_unique h.nodup hs hbmem hsx
        subst hsb
        unfold stepVal
        rw [if_pos rfl, if_neg (fun hqb2 => hbqne hqb2.symm)]
        unfold rowVal
        rw [if_neg hbb, if_pos hqname]
        rfl
      · have hsq : s = q := name_unique h.nodup hs hqmem hsy
        subst hsq
        rcases hw with hx2 | ⟨-, hqb, -⟩
        · exact absurd hx2.symm hbqne
        · exact absurd hqp hqb
  · intro L1 L2 hsplit hq1 hb2
    subst hsplit
    rw [assemble_cellOf (L1 ++ L2) bc (some v) h q.Name b.Name hqn hbn]
    congr 1
    show finalCell (L1 ++ L2) bc (some v) q.Name b.Name = some v
    unfold finalCell
    apply prefixCell_suffix_agree
    · exact ⟨b, hb2, Or.inr ⟨rfl, hbb, Or.inl hqname⟩⟩
    · intro s hs hw
      rcases writes_name hw with hsx | hsy
      · exact (nodup_split_names h.nodup hq1 hs hsx.symm).elim
      · have hsb : s = b :=
          name_unique h.nodup (List.mem_append.mpr (Or.inr hs)) hbmem hsy
        subst hsb
        unfold stepVal
        rw [if_neg (fun hbq2 => hbqne hbq2)]
        unfold colVal
        rw [if_pos hqname]

/-- C3 witness: pitcher listed first, both mirror cells equal the scalar. -/
theorem claim3_witness :
    cellOf (assemble slateQB bcEx pcEx) "b" "q" = some (some 2) ∧
    cellOf (assemble slateQB bcEx pcEx) "q" "b" = some (some 2) := by
  have h3 := claim3_amended slateQB bcEx pcEx ⟨by decide, by decide, by decide⟩
    2 rfl rowB (by decide) (by decide) rowQ (by decide) (by decide) (by decide)
  exact ⟨h3.1, h3.2 [rowQ] [rowB] rfl (by decide) (by decide)⟩


/-- C3 counterexample: with the batter listed before its opposing
pitcher, the final matrix has M[q,b] = 0 while M[b,q] = 2 = the
scalar — so M[p,q] == M[q,p] == PitcherOpponentCorrelation fails in the
final matrix. -/
theorem claim3_counterexample :
    ValidSlate slateBQ bcEx ∧ pcEx = some 2 ∧
    cellOf (assemble slateBQ bcEx pcEx) "b" "q" = some (some 2) ∧
    cellOf (assemble slateBQ bcEx pcEx) "q" "b" = some (some 0) ∧
    (some (some (0 : ℚ)) : Option (Option ℚ)) ≠ some (some 2) :=
  ⟨⟨by decide, by decide, by decide⟩, rfl, by decide, by decide, by decide⟩

/-- C6 (amended): a batting-order slot absent from the historical
table's index is a fatal lookup failure (`KeyError`) for the whole
assembly — every batter looks up its own `(order, order)` pair in its
teammate loop, so the loop never completes. -/
theorem claim6_missing_slot_fatal (slate : List SlateRow) (bc : BattersCorr)
    (pc : Option ℚ) (r : SlateRow) (hr : r ∈ slate) (hrb : r.Position ≠ "P")
    (hmiss : r.Order ∉ bc.slots) :
    assemble slate bc pc = Except.error "KeyError" := by
  unfold assemble
  have herr : ∀ c : CorrM, processRow slate bc pc c r = Except.error "KeyError" := by
    intro c
    unfold processRow
    rw [if_neg hrb]
    have hrts : r ∈ slate.filter (fun t => decide (t.Team = r.Team)) :=
      List.mem_filter.mpr ⟨hr, by simp⟩
    have herr1 : ∀ c1 : CorrM, teammateStep r bc c1 r = Except.error "KeyError" := by
      intro c1
      unfold teammateStep
      rw [if_neg hrb]
      unfold bcLookup
      rw [if_neg (by rintro ⟨h1, -⟩; exact hmiss h1)]
    rw [foldlM_lookup_err (teammateStep r bc) (teammateStep_ok_or_key r bc) r herr1
      (slate.filter (fun t => decide (t.Team = r.Team))) hrts
      (setCell c r.Name r.Name (some 1))]
  exact foldlM_lookup_err (processRow slate bc pc) (processRow_ok_or_key slate bc pc)
    r herr slate hr initCorr

/-- C6 witness: a slate with a batter in order slot 10 aborts with the
lookup error. -/
theorem claim6_witness : assemble slateMiss bcEx pcEx = Except.error "KeyError" :=
  claim6_missing_slot_fatal slateMiss bcEx pcEx rowX10 (by decide) (by decide) (by decide)

/-- C6 counterexample: an undefined ("no data", `NaN`) order-pair entry
at PRESENT index keys is not fatal — the assembler completes and the
row NaN-fill substitutes 0 at cell (c, a) (leaving `NaN` at the mirror
cell (a, c)), contradicting "it never substitutes 0 for that entry". -/
theorem claim6_counterexample :
    ValidSlate slateAC bcEx ∧ (2 : Int) ∈ bcEx.slots ∧ (1 : Int) ∈ bcEx.slots ∧
    bcEx.val 2 1 = none ∧
    cellOf (assemble slateAC bcEx pcEx) "c" "a" = some (some 0) ∧
    cellOf (assemble slateAC bcEx pcEx) "a" "c" = some none :=
  ⟨⟨by decide, by decide, by decide⟩, by decide, by decide, by decide,
    by decide, by decide⟩

/-- C7: the PSD gate raises `ValueError("Correlation matrix not positive
semi-definite")` if and only if the matrix is not equal to its transpose
(`np.array_equal`, `NaN`-unequal) or some eigenvalue is `< 0` under the
exact comparison; otherwise the matrix is passed through to the artifact
write unchanged.  Eigenvalues are a numeric input to the embedding. -/
theorem claim7_psd_gate (names : List String) (c : CorrM) (eigs : List ℚ) :
    (validateAndWrite names c eigs =
        Except.error "Correlation matrix not positive semi-definite" ↔
      (symCheck names c = false ∨ ∃ e ∈ eigs, e < 0)) ∧
    ((symCheck names c = true ∧ ∀ e ∈ eigs, 0 ≤ e) →
      validateAndWrite names c eigs = Except.ok c) := by
  constructor
  · constructor
    · intro herr
      by_cases hcond : symCheck names c = true ∧
          eigs.all (fun e => decide (0 ≤ e)) = true
      · unfold validateAndWrite at herr
        rw [if_neg (not_not_intro hcond)] at herr
        cases herr
      · rcases not_and_or.mp hcond with hsym | hall
        · exact Or.inl (Bool.not_eq_true _ ▸ Bool.eq_false_iff.mpr hsym)
        · right
          have hex : ∃ e ∈ eigs, ¬(decide (0 ≤ e) = true) := by
            by_contra hno
            push_neg at hno
            exact hall (List.all_eq_true.mpr fun e he => hno e he)
          rcases hex with ⟨e, he, hne⟩
          exact ⟨e, he, lt_of_not_le (fun hle => hne (decide_eq_true hle))⟩
    · intro hor
      unfold validateAndWrite
      rw [if_pos]
      rintro ⟨hsym, hall⟩
      rcases hor with hfalse | ⟨e, he, hlt⟩
      · rw [hsym] at hfalse
        cases hfalse
      · have := List.all_eq_true.mp hall e he
        rw [decide_eq_true_eq] at this
        exact absurd this (not_le_of_lt hlt)
  · rintro ⟨hsym, hall⟩
    unfold validateAndWrite
    rw [if_neg (not_not_intro ⟨hsym,
      List.all_eq_true.mpr fun e he => decide_eq_true (hall e he)⟩)]

/-- C7 witness: a negative eigenvalue forces the raise. -/
theorem claim7_witness :
    validateAndWrite ["a"] (fun _ _ => some 1) [(-1 : ℚ)] =
      Except.error "Correlation matrix not positive semi-definite" :=
  (claim7_psd_gate ["a"] (fun _ _ => some 1) [(-1 : ℚ)]).1.mpr
    (Or.inr ⟨-1, by decide, by decide⟩)

/-- C8: the covariance scaler `D · corr · D` satisfies
`cov[i,j] = std[i] * std[j] * corr[i,j]`; its diagonal is `std[p]²`
whenever `corr[p,p] = 1`; and it is symmetric whenever `corr` is. -/
theorem claim8_cov_scaler (n : ℕ) (std : Fin n → ℚ)
    (corrm : Matrix (Fin n) (Fin n) ℚ) :
    (∀ i j, covMatrix n std corrm i j = std i * std j * corrm i j) ∧
    (∀ p, corrm p p = 1 → covMatrix n std corrm p p = std p ^ 2) ∧
    ((∀ i j, corrm i j = corrm j i) →
      ∀ i j, covMatrix n std corrm i j = covMatrix n std corrm j i) := by
  have hentry : ∀ i j, covMatrix n std corrm i j = std i * std j * corrm i j := by
    intro i j
    unfold covMatrix
    rw [Matrix.mul_diagonal, Matrix.diagonal_mul]
    ring
  refine ⟨hentry, ?_, ?_⟩
  · intro p hpp
    rw [hentry p p, hpp, mul_one, sq]
  · intro hs i j
    rw [hentry i j, hentry j i, hs i j]
    ring

/-- Standard deviations for the C8 witness. -/
def stdW : Fin 2 → ℚ := ![3, 4]

/-- Correlation matrix for the C8 witness. -/
def corrW : Matrix (Fin 2) (Fin 2) ℚ := Matrix.of ![![1, 2], ![2, 1]]

/-- C8 witness. -/
theorem claim8_witness :
    covMatrix 2 stdW corrW 0 0 = stdW 0 ^ 2 ∧
    covMatrix 2 stdW corrW 0 1 = stdW 0 * stdW 1 * corrW 0 1 :=
  ⟨(claim8_cov_scaler 2 stdW corrW).2.1 0 rfl,
    (claim8_cov_scaler 2 stdW corrW).1 0 1⟩

/-- C9: a player with a missing historical standard deviation receives
the position-dependent default (15 for pitchers, 10 — strictly smaller —
otherwise, read off the first slate row with that `Player`); a player
with a present value keeps it unchanged. -/
theorem claim9_std_default (hist : String → Option ℚ) (slate : List SlateRow)
    (r : SlateRow)
    (hfirst : slate.find? (fun s => decide (s.Player = r.Player)) = some r) :
    (hist r.Player = none →
      fillStd hist slate r.Player =
        some (if r.Position = "P" then default_pitcher_std else default_other_std)) ∧
    (∀ s, hist r.Player = some s → fillStd hist slate r.Player = some s) ∧
    default_other_std < default_pitcher_std := by
  refine ⟨?_, ?_, by norm_num [default_other_std, default_pitcher_std]⟩
  · intro hnone
    unfold fillStd
    rw [hnone, hfirst]
    rfl
  · intro s hs
    unfold fillStd
    rw [hs]

/-- Historical standard deviations for the C9 witness: present only
for `q`. -/
def histW : String → Option ℚ := fun p => if p = "q" then some 7 else none

/-- C9 witness: missing value for batter `b` gets the non-pitcher
default; present value for `q` is kept. -/
theorem claim9_witness :
    fillStd histW slateQB "b" = some default_other_std ∧
    fillStd histW slateQB "q" = some 7 ∧
    default_other_std < default_pitcher_std :=
  ⟨(claim9_std_default histW slateQB rowB (by decide)).1 (by decide),
    (claim9_std_default histW slateQB rowQ (by decide)).2.1 7 (by decide),
    (claim9_std_default histW slateQB rowB (by decide)).2.2⟩

/-- C10: the assembled matrix depends on the textual order of slate
rows: `slateBQ` and `slateQB` are permutations of each other, yet the
assembler maps them to different matrices — when the pitcher row is
processed after the opposing batter, the pitcher step overwrites
(pitcher, batter) with 0 while (batter, pitcher) keeps the scalar,
leaving an asymmetric matrix. -/
theorem claim10_order_dependence :
    slateBQ.Perm slateQB ∧
    cellOf (assemble slateBQ bcEx pcEx) "b" "q" = some (some 2) ∧
    cellOf (assemble slateBQ bcEx pcEx) "q" "b" = some (some 0) ∧
    cellOf (assemble slateQB bcEx pcEx) "q" "b" = some (some 2) ∧
    cellOf (assemble slateQB bcEx pcEx) "b" "q" = some (some 2) :=
  ⟨List.Perm.swap rowQ rowB [], by decide, by decide, by decide, by decide⟩

/-- C1 counterexample: a valid slate (unique names, opposing pitcher
present) whose assembled matrix is asymmetric: the batter row precedes
the pitcher row, so M[b,q] = 2 but M[q,b] = 0. -/
theorem claim1_counterexample :
    ValidSlate slateBQ bcEx ∧
    cellOf (assemble slateBQ bcEx pcEx) "b" "q" = some (some 2) ∧
    cellOf (assemble slateBQ bcEx pcEx) "q" "b" = some (some 0) ∧
    cellOf (assemble slateBQ bcEx pcEx) "b" "q" ≠
      cellOf (assemble slateBQ bcEx pcEx) "q" "b" :=
  ⟨⟨by decide, by decide, by decide⟩, by decide, by decide, by decide⟩

/-- C1 (amended): the assembled matrix is symmetric on every valid slate
whose historical inputs are well-formed (symmetric order table, defined
in-team entries, defined pitcher scalar) PROVIDED each batter's
designated opposing pitcher's row precedes the batter's row in the
slate.  (Without the ordering proviso symmetry fails, see the
counterexample: a pitcher row processed after an opposing batter's row
re-zeroes the (pitcher, batter) cell only.) -/
theorem claim1_amended (slate : List SlateRow) (bc : BattersCorr) (pc : Option ℚ)
    (h : ValidSlate slate bc)
    (hsym : ∀ o1 o2 : Int, bc.val o1 o2 = bc.val o2 o1)
    (hdef : ∀ r ∈ slate, ∀ t ∈ slate, r.Position ≠ "P" → t.Position ≠ "P" →
      r.Team = t.Team → bc.val r.Order t.Order ≠ none)
    (hpcd : pc ≠ none)
    (horder : ∀ b ∈ slate, b.Position ≠ "P" → ∃ L1 L2, slate = L1 ++ L2 ∧
      (∃ q ∈ L1, q.Name = b.Opp_Pitcher) ∧ b ∈ L2)
    (x y : String) (hx : x ∈ slateNames slate) (hy : y ∈ slateNames slate) :
    cellOf (assemble slate bc pc) x y = cellOf (assemble slate bc pc) y x := by
  rw [assemble_cellOf slate bc pc h x y hx hy,
    assemble_cellOf slate bc pc h y x hy hx]
  congr 1
  rcases List.mem_map.mp hx with ⟨rx, hrx, hrxn⟩
  rcases List.mem_map.mp hy with ⟨ry, hry, hryn⟩
  subst hrxn
  subst hryn
  by_cases hxy : rx.Name = ry.Name
  · rw [hxy]
  · have hbatOP : ∀ a ∈ slate, a.Position ≠ "P" → ∀ b ∈ slate, b.Position ≠ "P" →
        b.Name ≠ a.Opp_Pitcher := by
      intro a ha hab b hb hbb hEq
      obtain ⟨qq, hqqm, hqqn, hqqp⟩ := h.opp a ha hab
      have hbqq : b = qq := name_unique h.nodup hb hqqm (hEq.trans hqqn.symm)
      rw [hbqq] at hbb
      exact hbb hqqp
    have hPP : ∀ a b : SlateRow, a ∈ slate → b ∈ slate → a.Name ≠ b.Name →
        a.Position = "P" → b.Position = "P" →
        finalCell slate bc pc a.Name b.Name = some 0 := by
      intro a b ha hb hne hap hbp
      apply finalCell_agree
      · exact ⟨a, ha, Or.inl rfl⟩
      · intro s hs hw
        rcases writes_name hw with hsx | hsy
        · have hsa : s = a := name_unique h.nodup hs ha hsx
          subst hsa
          unfold stepVal
          rw [if_pos rfl, if_neg (fun hba => hne hba.symm)]
          unfold rowVal
          rw [if_pos hap]
        · have hsb : s = b := name_unique h.nodup hs hb hsy
          subst hsb
          rcases hw with hx' | ⟨-, hbb2, -⟩
          · exact absurd hx'.symm hne
          · exact absurd hbp hbb2
    have hPBpair : ∀ a b : SlateRow, a ∈ slate → b ∈ slate → a.Name ≠ b.Name →
        a.Position = "P" → b.Position ≠ "P" →
        finalCell slate bc pc a.Name b.Name =
          finalCell slate bc pc b.Name a.Name := by
      intro a b ha hb hne hap hbb
      by_cases hOP : a.Name = b.Opp_Pitcher
      · obtain ⟨L1, L2, hsp, ⟨q1, hq1, hq1n⟩, hbL2⟩ := horder b hb hbb
        obtain ⟨v, hpcv⟩ : ∃ v, pc = some v := by
          cases hpc2 : pc with
          | none => exact absurd hpc2 hpcd
          | some v => exact ⟨v, rfl⟩
        have h1 : finalCell slate bc pc a.Name b.Name = some v := by
          unfold finalCell
          rw [hsp]
          apply prefixCell_suffix_agree
          · exact ⟨b, hbL2, Or.inr ⟨rfl, hbb, Or.inl hOP⟩⟩
          · intro s hs hw
            rcases writes_name hw with hsx | hsy
            · have hq1a : q1.Name = s.Name := by rw [hq1n, ← hOP, hsx]
              have hnd' : ((L1 ++ L2).map SlateRow.Name).Nodup := by
                rw [← hsp]
                exact h.nodup
              exact (nodup_split_names hnd' hq1 hs hq1a).elim
            · have hsmem : s ∈ slate := by
                rw [hsp]
                exact List.mem_append.mpr (Or.inr hs)
              have hsb : s = b := name_unique h.nodup hsmem hb hsy
              subst hsb
              unfold stepVal
              rw [if_neg (fun hba => hne hba.symm)]
              unfold colVal
              rw [if_pos hOP, hpcv]
        have h2 : finalCell slate bc pc b.Name a.Name = some v := by
          apply finalCell_agree
          · exact ⟨b, hb, Or.inl rfl⟩
          · intro s hs hw
            rcases writes_name hw with hsx | hsy
            · have hsb : s = b := name_unique h.nodup hs hb hsx
              subst hsb
              unfold stepVal
              rw [if_pos rfl, if_neg (fun hab2 => hne hab2)]
              unfold rowVal
              rw [if_neg hbb, if_pos hOP, hpcv]
              rfl
            · have hsa : s = a := name_unique h.nodup hs ha hsy
              subst hsa
              rcases hw with hx' | ⟨-, hap2, -⟩
              · exact absurd hx' hne
              · exact absurd hap hap2
        rw [h1, h2]
      · have h1 : finalCell slate bc pc a.Name b.Name = some 0 := by
          apply finalCell_agree
          · exact ⟨a, ha, Or.inl rfl⟩
          · intro s hs hw
            rcases writes_name hw with hsx | hsy
            · have hsa : s = a := name_unique h.nodup hs ha hsx
              subst hsa
              unfold stepVal
              rw [if_pos rfl, if_neg (fun hba => hne hba.symm)]
              unfold rowVal
              rw [if_pos hap]
            · have hsb : s = b := name_unique h.nodup hs hb hsy
              subst hsb
              rcases hw with hx' | ⟨-, -, hrel⟩
              · exact absurd hx'.symm hne
              · unfold stepVal
                rw [if_neg (fun hba => hne hba.symm)]
                unfold colVal
                rw [if_neg (fun hop => hOP hop)]
                rcases hrel with hop | hfs
                · exact absurd hop hOP
                · rcases Option.isSome_iff_exists.mp hfs with ⟨t, hft⟩
                  obtain ⟨htm, htteam, htn⟩ := teamFind_mem hft
                  have hta : t = a := name_unique h.nodup htm ha htn
                  rw [hft]
                  show (if t.Position = "P" then some 0
                    else bc.val s.Order t.Order) = some 0
                  rw [if_pos (by rw [hta]; exact hap)]
        have h2 : finalCell slate bc pc b.Name a.Name = some 0 := by
          apply finalCell_agree
          · exact ⟨b, hb, Or.inl rfl⟩
          · intro s hs hw
            rcases writes_name hw with hsx | hsy
            · have hsb : s = b := name_unique h.nodup hs hb hsx
              subst hsb
              unfold stepVal
              rw [if_pos rfl, if_neg (fun hab2 => hne hab2)]
              unfold rowVal
              rw [if_neg hbb, if_neg (fun hop => hOP hop)]
              cases hft : teamFind slate s a.Name with
              | some t =>
                obtain ⟨htm, htteam, htn⟩ := teamFind_mem hft
                have hta : t = a := name_unique h.nodup htm ha htn
                show (if t.Position = "P" then some 0
                  else some ((bc.val s.Order t.Order).getD 0)) = some 0
                rw [if_pos (by rw [hta]; exact hap)]
              | none => rfl
            · have hsa : s = a := name_unique h.nodup hs ha hsy
              subst hsa
              rcases hw with hx' | ⟨-, hap2, -⟩
              · exact absurd hx' hne
              · exact absurd hap hap2
        rw [h1, h2]
    have hBBsame : ∀ a b : SlateRow, a ∈ slate → b ∈ slate → a.Name ≠ b.Name →
        a.Position ≠ "P" → b.Position ≠ "P" → a.Team = b.Team → ∀ v : ℚ,
        bc.val a.Order b.Order = some v → bc.val b.Order a.Order = some v →
        finalCell slate bc pc a.Name b.Name = some v := by
      intro a b ha hb hne hab hbb ht v hv1 hv2
      apply finalCell_agree
      · exact ⟨a, ha, Or.inl rfl⟩
      · intro s hs hw
        rcases writes_name hw with hsx | hsy
        · have hsa : s = a := name_unique h.nodup hs ha hsx
          subst hsa
          unfold stepVal
          rw [if_pos rfl, if_neg (fun hba => hne hba.symm)]
          unfold rowVal
          rw [if_neg hab, if_neg (hbatOP s hs hab b hb hbb),
            teamFind_eq_some h.nodup hb ht.symm rfl]
          show (if b.Position = "P" then some 0
            else some ((bc.val s.Order b.Order).getD 0)) = some v
          rw [if_neg hbb, hv1]
          rfl
        · have hsb : s = b := name_unique h.nodup hs hb hsy
          subst hsb
          unfold stepVal
          rw [if_neg (fun hba => hne hba.symm)]
          unfold colVal
          rw [if_neg (hbatOP s hs hbb a ha hab), teamFind_eq_some h.nodup ha ht rfl]
          show (if a.Position = "P" then some 0 else bc.val s.Order a.Order) = some v
          rw [if_neg hab, hv2]
    have hBBdiff : ∀ a b : SlateRow, a ∈ slate → b ∈ slate → a.Name ≠ b.Name →
        a.Position ≠ "P" → b.Position ≠ "P" → ¬(a.Team = b.Team) →
        finalCell slate bc pc a.Name b.Name = some 0 := by
      intro a b ha hb hne hab hbb ht
      apply finalCell_agree
      · exact ⟨a, ha, Or.inl rfl⟩
      · intro s hs hw
        rcases writes_name hw with hsx | hsy
        · have hsa : s = a := name_unique h.nodup hs ha hsx
          subst hsa
          unfold stepVal
          rw [if_pos rfl, if_neg (fun hba => hne hba.symm)]
          unfold rowVal
          have hnone2 : teamFind slate s b.Name = none :=
            teamFind_eq_none (fun t htm htn htt => by
              have htb : t = b := name_unique h.nodup htm hb htn
              rw [htb] at htt
              exact ht htt.symm)
          rw [if_neg hab, if_neg (hbatOP s hs hab b hb hbb), hnone2]
        · have hsb : s = b := name_unique h.nodup hs hb hsy
          subst hsb
          rcases hw with hx' | ⟨-, -, hrel⟩
          · exact absurd hx'.symm hne
          · rcases hrel with hop | hfs
            · exact absurd hop (fun hop2 => hbatOP s hs hbb a ha hab hop2)
            · rcases Option.isSome_iff_exists.mp hfs with ⟨t, hft⟩
              obtain ⟨htm, htteam, htn⟩ := teamFind_mem hft
              have hta : t = a := name_unique h.nodup htm ha htn
              rw [hta] at htteam
              exact absurd htteam ht
    by_cases hpx : rx.Position = "P"
    · by_cases hpy : ry.Position = "P"
      · rw [hPP rx ry hrx hry hxy hpx hpy,
          hPP ry rx hry hrx (fun hh => hxy hh.symm) hpy hpx]
      · exact hPBpair rx ry hrx hry hxy hpx hpy
    · by_cases hpy : ry.Position = "P"
      · exact (hPBpair ry rx hry hrx (fun hh => hxy hh.symm) hpy hpx).symm
      · by_cases hteam : rx.Team = ry.Team
        · cases hbv : bc.val rx.Order ry.Order with
          | none => exact absurd hbv (hdef rx hrx ry hry hpx hpy hteam)
          | some v =>
            have hv' : bc.val ry.Order rx.Order = some v := by
              rw [hsym ry.Order rx.Order]
              exact hbv
            rw [hBBsame rx ry hrx hry hxy hpx hpy hteam v hbv hv',
              hBBsame ry rx hry hrx (fun hh => hxy hh.symm) hpy hpx hteam.symm v hv' hbv]
        · rw [hBBdiff rx ry hrx hry hxy hpx hpy hteam,
            hBBdiff ry rx hry hrx (fun hh => hxy hh.symm) hpy hpx
              (fun hh => hteam hh.symm)]

/-- C1 witness: on the pitcher-first slate all required hypotheses hold
and the matrix is symmetric at the mixed pair. -/
theorem claim1_witness :
    cellOf (assemble slateQB bcEx pcEx) "b" "q" =
      cellOf (assemble slateQB bcEx pcEx) "q" "b" :=
  claim1_amended slateQB bcEx pcEx ⟨by decide, by decide, by decide⟩
    (by
      intro o1 o2
      show (if o1 = o2 then (some 1 : Option ℚ) else none) =
        if o2 = o1 then some 1 else none
      by_cases h12 : o1 = o2
      · rw [if_pos h12, if_pos h12.symm]
      · rw [if_neg h12, if_neg (fun hh => h12 hh.symm)])
    (by decide) (by decide)
    (by
      intro b hb hbp
      have hbb : b = rowB := by
        rcases List.mem_cons.mp hb with h1 | h2
        · rw [h1] at hbp
          exact absurd rfl hbp
        · rcases List.mem_cons.mp h2 with h3 | h4
          · exact h3
          · cases h4
      exact ⟨[rowQ], [rowB], rfl, ⟨rowQ, List.mem_cons_self rowQ [], by subst hbb; rfl⟩,
        by subst hbb; exact List.mem_cons_self rowB []⟩)
    "b" "q" (by decide) (by decide)
